import Mathlib

/-!
# Asteroid-Impact: verification of the timeline / RNG / latch core

Shallow embedding of the deterministic core of the Asteroid-Impact
repository:

* `SeededRNG` — the Mulberry32-style seeded PRNG (src/unnamed/part_000).
* `Timeline` — the fixed-timestep timeline driver of `src/src/main.js`.
* `TimelineDriver` — the direct-mapping timeline of src/unnamed/part_008
  (timeline.js), together with its phase table and `T_IMPACT`.
* the overlay impact latch of
  `src/src/impactOverlay/scene/createScene.js` (`updateSceneEntities`).
* the asteroid heat curve `updateHeating` of src/unnamed/part_001.

JavaScript numbers are modelled by `ℚ` (exact arithmetic; every value the
analysed code produces on the inputs of interest is exactly representable),
and integer-valued counters by `ℕ`/`ℤ` with explicit `% 2 ^ 32` where the
JS coercions (`>>> 0`, `Math.imul`, bitwise operators) reduce modulo 2^32.
-/

namespace AsteroidImpact

/-! ## JavaScript primitives -/

/-- Truncation toward zero, as JavaScript applies to the quotient inside
the remainder operator: `⌊q⌋` for nonnegative `q`, `⌈q⌉` for negative. -/
def jsTrunc (q : ℚ) : ℤ :=
  if 0 ≤ q then ⌊q⌋ else ⌈q⌉

/-- The JavaScript remainder operator on finite numbers with nonzero
divisor: the result has the sign of the dividend. -/
def jsFmod (a b : ℚ) : ℚ :=
  a - b * jsTrunc (a / b)

/-- `2 ^ 32`, the modulus of every 32-bit JS coercion. -/
def U32 : ℕ := 4294967296

/-- Residue of `Math.imul a b` modulo 2^32 (`Math.imul` returns the signed
32-bit product; all downstream uses in the code reduce it mod 2^32 again,
so tracking the unsigned residue is exact). -/
def imul (a b : ℕ) : ℕ := a * b % U32

/-! ## Seeded PRNG (src/unnamed/part_000)

`constructor(seed) { this.seed = seed >>> 0; this.state = this.seed; }`

`next()` performs `let t = (this.state += 0x6d2b79f5);` — note the sum is
stored back into `this.state` *without* any `>>> 0` coercion, so the state
field grows without 32-bit wraparound (exact as a JS float while it stays
below 2^53; we model it as an unbounded natural number).  The temporaries
`t` are consumed only by 32-bit coercing operators, so they are tracked as
residues modulo 2^32. -/

/-- The Mulberry32 increment `0x6d2b79f5`. -/
def MULBERRY_INC : ℕ := 1831565813

/-- Seeded PRNG state: `seed` (coerced with `>>> 0` at construction) and
the mutable `state` counter. -/
structure SeededRNG where
  seed : ℕ
  state : ℕ
  deriving Repr, DecidableEq

/-- `new SeededRNG(seed)`: `seed >>> 0` is reduction mod 2^32. -/
def mkSeededRNG (seed : ℕ) : SeededRNG :=
  { seed := seed % U32, state := seed % U32 }

/-- The output scrambling of `next()` applied to the (updated) state:
`t = Math.imul(t ^ (t >>> 15), t | 1); t ^= t + Math.imul(t ^ (t >>> 7), t | 61);
return ((t ^ (t >>> 14)) >>> 0) / 4294967296` — here we return the
numerator `(t ^ (t >>> 14)) >>> 0`, an unsigned 32-bit integer. -/
def mulberryOutput (s : ℕ) : ℕ :=
  let t0 := s % U32
  let t1 := imul (t0 ^^^ (t0 >>> 15)) (t0 ||| 1)
  let t2 := t1 ^^^ ((t1 + imul (t1 ^^^ (t1 >>> 7)) (t1 ||| 61)) % U32)
  (t2 ^^^ (t2 >>> 14)) % U32

/-- `next()`: advances `state` by `0x6d2b79f5` (no wraparound applied to
the stored field) and returns the scrambled output divided by 2^32. -/
def SeededRNG.next (r : SeededRNG) : ℚ × SeededRNG :=
  let s := r.state + MULBERRY_INC
  ((mulberryOutput s : ℚ) / (U32 : ℚ), { r with state := s })

/-- `range(min, max)`: `min + this.next() * (max - min)`. -/
def SeededRNG.range (r : SeededRNG) (lo hi : ℚ) : ℚ × SeededRNG :=
  let (v, r1) := r.next
  (lo + v * (hi - lo), r1)

/-- `rangeInt(min, max)`: `Math.floor(this.range(min, max + 1))`. -/
def SeededRNG.rangeInt (r : SeededRNG) (lo hi : ℚ) : ℤ × SeededRNG :=
  let (v, r1) := r.range lo (hi + 1)
  (⌊v⌋, r1)

/-- JS array indexing `array[i]` for an integer index: `undefined`
(modelled `none`) outside the bounds. -/
def jsIndex {α : Type} (l : List α) (i : ℤ) : Option α :=
  if h : 0 ≤ i ∧ i.toNat < l.length then some (l.get ⟨i.toNat, h.2⟩)
  else none

/-- `pick(array)`: `array[this.rangeInt(0, array.length - 1)]`. -/
def SeededRNG.pick {α : Type} (r : SeededRNG) (l : List α) :
    Option α × SeededRNG :=
  let (i, r1) := r.rangeInt 0 ((l.length : ℚ) - 1)
  (jsIndex l i, r1)

/-- Iterate `next()` discarding the outputs; mirrors calling `next()`
`n` times on the same instance. -/
def SeededRNG.nextN (r : SeededRNG) : ℕ → SeededRNG
  | 0 => r
  | n + 1 => (r.next.2).nextN n

/-! ## Fixed-timestep Timeline (src/src/main.js, class Timeline)

Constructor values come from `TIMELINE_CONFIG` in src/src/config/presets.js:
`totalDuration: 22.0`, `fixedTimeStep: 1 / 60`. -/

/-- `TIMELINE_CONFIG.totalDuration` (presets.js line 23): 22.0 seconds. -/
def TIMELINE_CONFIG_totalDuration : ℚ := 22

/-- `TIMELINE_CONFIG.fixedTimeStep` (presets.js line 24): 1/60 seconds. -/
def TIMELINE_CONFIG_fixedTimeStep : ℚ := 1 / 60

/-- State of `class Timeline` (main.js). -/
structure Timeline where
  seed : ℤ
  totalDuration : ℚ
  fixedTimeStep : ℚ
  isPlaying : Bool
  timeSeconds : ℚ
  accumulator : ℚ
  lastRealTime : ℚ
  T : ℚ
  phaseName : String
  deriving Repr, DecidableEq

/-- `updatePhase()` (main.js lines 358-372), as a function of the fields it
reads; it writes `this.phaseName`. -/
def updatePhaseName (isPlaying : Bool) (T : ℚ) : String :=
  if !isPlaying then "Idle"
  else if T < 3 / 10 then "Far Approach"
  else if T < 3 / 5 then "Mid Approach"
  else if T < 17 / 20 then "Near Rush"
  else if T < 87 / 100 then "Impact"
  else "Aftermath"

/-- `new Timeline(seed)`. -/
def mkTimeline (seed : ℤ) : Timeline :=
  { seed := seed
    totalDuration := TIMELINE_CONFIG_totalDuration
    fixedTimeStep := TIMELINE_CONFIG_fixedTimeStep
    isPlaying := false
    timeSeconds := 0
    accumulator := 0
    lastRealTime := 0
    T := 0
    phaseName := "Idle" }

/-- One iteration of the body of the `while (this.accumulator >= this.fixedTimeStep)`
loop in `Timeline.update` (main.js lines 337-345): advance `timeSeconds` by one
fixed step, wrap it modulo `totalDuration` when it reaches the end, and pay one
step out of the accumulator.  The `fuel` argument bounds the iteration count;
`fixedStepLoop` below supplies fuel that provably exhausts the loop guard, so
the fuelled recursion computes the exact fixpoint of the JS `while` loop
(which terminates in JS for the same reason, `fixedTimeStep > 0`). -/
def fixedStepLoopFuel (dur step : ℚ) : ℕ → ℚ → ℚ → ℚ × ℚ
  | 0, time, acc => (time, acc)
  | fuel + 1, time, acc =>
    if step ≤ acc then
      let t1 := time + step
      let t2 := if dur ≤ t1 then jsFmod t1 dur else t1
      fixedStepLoopFuel dur step fuel t2 (acc - step)
    else (time, acc)

/-- The fixed-timestep catch-up loop of `Timeline.update`: runs the loop body
while `accumulator ≥ fixedTimeStep`.  `⌈acc / step⌉` iterations always suffice
(for `step > 0` each iteration lowers `⌈acc / step⌉` by exactly one, and the
guard fails once it is nonpositive), so the fuelled computation equals the
JS loop's result. -/
def fixedStepLoop (dur step time acc : ℚ) : ℚ × ℚ :=
  fixedStepLoopFuel dur step (⌈acc / step⌉).toNat time acc

/-- `restart(currentRealTime)` (main.js lines 296-303). -/
def Timeline.restart (tl : Timeline) (currentRealTime : ℚ) : Timeline :=
  let tl1 := { tl with
    isPlaying := true
    timeSeconds := 0
    accumulator := 0
    lastRealTime := currentRealTime
    T := 0 }
  { tl1 with phaseName := updatePhaseName tl1.isPlaying tl1.T }

/-- `pause()` (main.js lines 308-310). -/
def Timeline.pause (tl : Timeline) : Timeline :=
  { tl with isPlaying := false }

/-- `resume(currentRealTime)` (main.js lines 315-318). -/
def Timeline.resume (tl : Timeline) (currentRealTime : ℚ) : Timeline :=
  { tl with isPlaying := true, lastRealTime := currentRealTime }

/-- `update(currentRealTime)` (main.js lines 324-352): delta accumulation
(with no clamping of negative deltas), the fixed-timestep catch-up loop,
then recomputation of `T` and the phase. -/
def Timeline.update (tl : Timeline) (currentRealTime : ℚ) : Timeline :=
  if !tl.isPlaying then tl
  else
    let deltaTime := currentRealTime - tl.lastRealTime
    let acc0 := tl.accumulator + deltaTime
    let p := fixedStepLoop tl.totalDuration tl.fixedTimeStep tl.timeSeconds acc0
    let T := min 1 (p.1 / tl.totalDuration)
    { tl with
      lastRealTime := currentRealTime
      timeSeconds := p.1
      accumulator := p.2
      T := T
      phaseName := updatePhaseName tl.isPlaying T }

/-- Drive the timeline through a list of `update` timestamps, returning the
final state. -/
def Timeline.runUpdates (tl : Timeline) : List ℚ → Timeline
  | [] => tl
  | now :: rest => (tl.update now).runUpdates rest

/-- The sequence of `T` values observed after each `update` in a run. -/
def Timeline.TSeq (tl : Timeline) : List ℚ → List ℚ
  | [] => []
  | now :: rest =>
    let tl1 := tl.update now
    tl1.T :: tl1.TSeq rest

/-- States of `Timeline` reachable from the constructor by any sequence of
`restart` / `pause` / `resume` / `update` calls with arbitrary (finite,
rational) wall-clock timestamps. -/
inductive TimelineReachable : Timeline → Prop
  | init (seed : ℤ) : TimelineReachable (mkTimeline seed)
  | restart {tl : Timeline} (t : ℚ) :
      TimelineReachable tl → TimelineReachable (tl.restart t)
  | pause {tl : Timeline} :
      TimelineReachable tl → TimelineReachable tl.pause
  | resume {tl : Timeline} (t : ℚ) :
      TimelineReachable tl → TimelineReachable (tl.resume t)
  | update {tl : Timeline} (t : ℚ) :
      TimelineReachable tl → TimelineReachable (tl.update t)

/-- Reachability restricted to runs whose `update` timestamps never lie
before the wall-clock reference (`lastRealTime`), i.e. the wall clock never
regresses between an update and the call that preceded it. -/
inductive TimelineReachableMono : Timeline → Prop
  | init (seed : ℤ) : TimelineReachableMono (mkTimeline seed)
  | restart {tl : Timeline} (t : ℚ) :
      TimelineReachableMono tl → TimelineReachableMono (tl.restart t)
  | pause {tl : Timeline} :
      TimelineReachableMono tl → TimelineReachableMono tl.pause
  | resume {tl : Timeline} (t : ℚ) :
      TimelineReachableMono tl → TimelineReachableMono (tl.resume t)
  | update {tl : Timeline} (t : ℚ) (h : tl.lastRealTime ≤ t) :
      TimelineReachableMono tl → TimelineReachableMono (tl.update t)

/-! ## Timeline module (src/unnamed/part_008, timeline.js):
phase table, `T_IMPACT`, and the direct-mapping `TimelineDriver`. -/

/-- `export const T_IMPACT = 0.85;` (timeline.js line 7). -/
def T_IMPACT : ℚ := 85 / 100

/-- `export const TIMELINE_DURATION_MS = 12000;` (timeline.js line 9). -/
def TIMELINE_DURATION_MS : ℚ := 12000

/-- One entry of the `PHASES` table.  The source field `end` is a Lean
keyword, so it is embedded as `endt`. -/
structure Phase where
  start : ℚ
  endt : ℚ
  name : String
  deriving Repr, DecidableEq

/-- The `PHASES` table (timeline.js lines 12-18), in insertion order, keyed
as `Object.entries` enumerates it. -/
def PHASES : List (String × Phase) :=
  [("FAR_APPROACH", { start := 0, endt := 3 / 10, name := "Far Approach" }),
   ("MID_APPROACH", { start := 3 / 10, endt := 3 / 5, name := "Mid Approach" }),
   ("NEAR_RUSH", { start := 3 / 5, endt := T_IMPACT, name := "Near Rush" }),
   ("IMPACT", { start := T_IMPACT, endt := T_IMPACT + 2 / 100, name := "Impact" }),
   ("AFTERMATH", { start := T_IMPACT + 2 / 100, endt := 1, name := "Aftermath" })]

/-- The `AFTERMATH` entry, the fallback of `getCurrentPhase`. -/
def PHASES_AFTERMATH : Phase :=
  { start := T_IMPACT + 2 / 100, endt := 1, name := "Aftermath" }

/-- State of `class TimelineDriver` (timeline.js lines 23-86).
`_startTime` is `null` until the first `restart`, hence an `Option`. -/
structure TimelineDriver where
  duration : ℚ
  playing : Bool
  t : ℚ
  startTime : Option ℚ
  pausedAt : ℚ
  deriving Repr, DecidableEq

/-- `new TimelineDriver(durationMs = TIMELINE_DURATION_MS)`. -/
def mkTimelineDriver (durationMs : ℚ := TIMELINE_DURATION_MS) : TimelineDriver :=
  { duration := durationMs, playing := false, t := 0, startTime := none, pausedAt := 0 }

/-- `restart(startTimeMs)` with an explicit start time (the
`?? performance.now()` default is a wall-clock read, outside the model). -/
def TimelineDriver.restart (d : TimelineDriver) (startTimeMs : ℚ) : TimelineDriver :=
  { d with playing := true, startTime := some startTimeMs, pausedAt := 0, t := 0 }

/-- `stop()` (timeline.js lines 39-42). -/
def TimelineDriver.stop (d : TimelineDriver) : TimelineDriver :=
  { d with playing := false, pausedAt := d.t * d.duration }

/-- `update(nowMs)` (timeline.js lines 44-52): no-op unless playing with a
start time; otherwise `t = min(1, ((nowMs - startTime) % duration) / duration)`
where `%` is the JS remainder (sign of the dividend). -/
def TimelineDriver.update (d : TimelineDriver) (nowMs : ℚ) : TimelineDriver :=
  match d.startTime with
  | none => d
  | some s =>
    if !d.playing then d
    else
      let elapsed := nowMs - s
      let looped := jsFmod elapsed d.duration
      { d with t := min 1 (looped / d.duration) }

/-- The scan of `getCurrentPhase()` over the entries of the phase table:
the `for ... of Object.entries(PHASES)` loop with its early `return`. -/
def findPhase (t : ℚ) : List (String × Phase) → Option (String × Phase)
  | [] => none
  | kp :: rest => if kp.2.start ≤ t ∧ t < kp.2.endt then some kp else findPhase t rest

/-- `getCurrentPhase()` (timeline.js lines 54-61): first phase of the table
whose `[start, end)` window contains `t`, defaulting to `AFTERMATH`. -/
def TimelineDriver.getCurrentPhase (d : TimelineDriver) : String × Phase :=
  match findPhase d.t PHASES with
  | some kp => kp
  | none => ("AFTERMATH", PHASES_AFTERMATH)

/-- The body of `getPhaseProgress()` (timeline.js lines 66-71) for a given
phase: `1.0` when the phase has zero length, otherwise
`min(1, (t - start) / length)`. -/
def phaseProgressFor (t : ℚ) (phase : Phase) : ℚ :=
  let phaseLength := phase.endt - phase.start
  if phaseLength = 0 then 1
  else min 1 ((t - phase.start) / phaseLength)

/-- `getPhaseProgress()`. -/
def TimelineDriver.getPhaseProgress (d : TimelineDriver) : ℚ :=
  phaseProgressFor d.t (d.getCurrentPhase).2

/-- Driver states reachable by any sequence of `restart` / `stop` /
`update` calls with arbitrary timestamps. -/
inductive DriverReachable : TimelineDriver → Prop
  | init : DriverReachable (mkTimelineDriver)
  | restart {d : TimelineDriver} (s : ℚ) :
      DriverReachable d → DriverReachable (d.restart s)
  | stop {d : TimelineDriver} :
      DriverReachable d → DriverReachable d.stop
  | update {d : TimelineDriver} (now : ℚ) :
      DriverReachable d → DriverReachable (d.update now)

/-- Driver reachability restricted to runs whose `update` timestamps never
precede the recorded start time (the wall clock does not regress past the
last `restart`). -/
inductive DriverReachableMono : TimelineDriver → Prop
  | init : DriverReachableMono (mkTimelineDriver)
  | restart {d : TimelineDriver} (s : ℚ) :
      DriverReachableMono d → DriverReachableMono (d.restart s)
  | stop {d : TimelineDriver} :
      DriverReachableMono d → DriverReachableMono d.stop
  | update {d : TimelineDriver} (now : ℚ)
      (h : ∀ s, d.startTime = some s → s ≤ now) :
      DriverReachableMono d → DriverReachableMono (d.update now)

/-! ## Overlay impact latch
(src/src/impactOverlay/scene/createScene.js, `updateSceneEntities`,
lines 131-161). -/

/-- `const impactT = 0.95;` (createScene.js line 132) — the overlay's
hard-coded impact-trigger threshold. -/
def overlayImpactT : ℚ := 95 / 100

/-- One playing-frame observation of `T` by `updateSceneEntities`:
first the reset branch (`if (T < impactT && metadata.impactTriggered)`),
then the trigger branch (`if (T >= impactT && !metadata.impactTriggered)`),
which fires the one-shot effects (explosion, shockwave, camera shake).
Returns the new `impactTriggered` flag and whether the effects fired. -/
def latchStep (impactTriggered : Bool) (T : ℚ) : Bool × Bool :=
  let trig1 := if T < overlayImpactT ∧ impactTriggered = true then false
               else impactTriggered
  if overlayImpactT ≤ T ∧ trig1 = false then (true, true)
  else (trig1, false)

/-- Run the latch over a sequence of observed `T` values (one per playing
frame), returning the fire flag of each frame. -/
def latchRun (impactTriggered : Bool) : List ℚ → List Bool
  | [] => []
  | T :: rest =>
    let p := latchStep impactTriggered T
    p.2 :: latchRun p.1 rest

/-! ## Asteroid heat curve (src/unnamed/part_001, `updateHeating`,
lines 389-409, with `ASTEROID_CONFIG` lines 176-199). -/

/-- `ASTEROID_CONFIG.maxEmissive` (part_001 line 189). -/
def maxEmissive : ℚ := 5 / 2

/-- `ASTEROID_CONFIG.heatThreshold` (part_001 line 190). -/
def heatThreshold : ℚ := 2 / 5

/-- `ASTEROID_CONFIG.heatColor` (part_001 line 188): `{r: 1.0, g: 0.4, b: 0.1}`. -/
def heatColor : ℚ × ℚ × ℚ := (1, 2 / 5, 1 / 10)

/-- The `heatIntensity` computed by `updateHeating` (part_001 lines 393-401):
zero below the threshold, else the square of the normalized overshoot. -/
def heatIntensity (T : ℚ) : ℚ :=
  if heatThreshold ≤ T then
    let normalizedHeat := (T - heatThreshold) / (1 - heatThreshold)
    normalizedHeat * normalizedHeat
  else 0

/-- The emissive colour written by `updateHeating` (part_001 lines 404-408):
each channel of `heatColor` times `heatIntensity * maxEmissive`. -/
def updateHeatingEmissive (T : ℚ) : ℚ × ℚ × ℚ :=
  (heatColor.1 * heatIntensity T * maxEmissive,
   heatColor.2.1 * heatIntensity T * maxEmissive,
   heatColor.2.2 * heatIntensity T * maxEmissive)

/-! ## Helper lemmas -/

/-- For a nonnegative dividend and positive divisor the JS remainder is the
floor-based remainder: `b` times the fractional part of `a / b`. -/
lemma jsFmod_eq_fract (a b : ℚ) (hb : 0 < b) (ha : 0 ≤ a) :
    jsFmod a b = b * Int.fract (a / b) := by
  have hdiv : 0 ≤ a / b := div_nonneg ha hb.le
  rw [jsFmod, jsTrunc, if_pos hdiv, Int.fract]
  field_simp

lemma jsFmod_nonneg (a b : ℚ) (hb : 0 < b) (ha : 0 ≤ a) : 0 ≤ jsFmod a b := by
  rw [jsFmod_eq_fract a b hb ha]
  exact mul_nonneg hb.le (Int.fract_nonneg _)

lemma jsFmod_lt (a b : ℚ) (hb : 0 < b) (ha : 0 ≤ a) : jsFmod a b < b := by
  rw [jsFmod_eq_fract a b hb ha]
  calc b * Int.fract (a / b) < b * 1 :=
        mul_lt_mul_of_pos_left (Int.fract_lt_one _) hb
    _ = b := mul_one b

lemma ceil_div_sub_self (acc step : ℚ) (hs : 0 < step) :
    ⌈(acc - step) / step⌉ = ⌈acc / step⌉ - 1 := by
  rw [sub_div, div_self (ne_of_gt hs)]
  exact Int.ceil_sub_one _

lemma one_le_ceil_div (acc step : ℚ) (hs : 0 < step) (hle : step ≤ acc) :
    1 ≤ ⌈acc / step⌉ := by
  have h1 : (1 : ℚ) ≤ acc / step := (one_le_div hs).mpr hle
  calc (1 : ℤ) = ⌈(1 : ℚ)⌉ := by norm_num
    _ ≤ ⌈acc / step⌉ := Int.ceil_le_ceil h1

lemma nonpos_of_ceil_div_nonpos {acc step : ℚ} (hs : 0 < step)
    (h : ⌈acc / step⌉ ≤ 0) : acc ≤ 0 := by
  by_contra hcon
  push_neg at hcon
  have hq : (0 : ℚ) < acc / step := div_pos hcon hs
  have : (0 : ℤ) < ⌈acc / step⌉ := Int.ceil_pos.mpr hq
  omega

/-- After the catch-up loop exits, the accumulator is below one fixed step,
provided the fuel dominates `⌈acc / step⌉` (as the fuel chosen by
`fixedStepLoop` does). -/
lemma fixedStepLoopFuel_acc_lt (dur step : ℚ) (hs : 0 < step) :
    ∀ (fuel : ℕ) (time acc : ℚ), (⌈acc / step⌉).toNat ≤ fuel →
      (fixedStepLoopFuel dur step fuel time acc).2 < step := by
  intro fuel
  induction fuel with
  | zero =>
    intro time acc hfuel
    have hle : ⌈acc / step⌉ ≤ 0 := by omega
    have : acc ≤ 0 := nonpos_of_ceil_div_nonpos hs hle
    simpa [fixedStepLoopFuel] using lt_of_le_of_lt this hs
  | succ n ih =>
    intro time acc hfuel
    by_cases hguard : step ≤ acc
    · have hrec : (⌈(acc - step) / step⌉).toNat ≤ n := by
        rw [ceil_div_sub_self acc step hs]
        have := one_le_ceil_div acc step hs hguard
        omega
      simpa [fixedStepLoopFuel, if_pos hguard] using
        ih _ (acc - step) hrec
    · push_neg at hguard
      simpa [fixedStepLoopFuel, if_neg (not_le.mpr hguard)] using hguard

/-- The loop never drives the accumulator negative. -/
lemma fixedStepLoopFuel_acc_nonneg (dur step : ℚ) :
    ∀ (fuel : ℕ) (time acc : ℚ), 0 ≤ acc →
      0 ≤ (fixedStepLoopFuel dur step fuel time acc).2 := by
  intro fuel
  induction fuel with
  | zero => intro time acc ha; simpa [fixedStepLoopFuel] using ha
  | succ n ih =>
    intro time acc ha
    by_cases hguard : step ≤ acc
    · have : (0 : ℚ) ≤ acc - step := by
        by_cases hstep : 0 ≤ step
        · linarith
        · push_neg at hstep; linarith
      simpa [fixedStepLoopFuel, if_pos hguard] using ih _ (acc - step) this
    · simpa [fixedStepLoopFuel, if_neg hguard] using ha

/-- The loop keeps `timeSeconds` inside `[0, totalDuration)`. -/
lemma fixedStepLoopFuel_time_mem (dur step : ℚ) (hd : 0 < dur) (hs : 0 < step) :
    ∀ (fuel : ℕ) (time acc : ℚ), 0 ≤ time → time < dur →
      0 ≤ (fixedStepLoopFuel dur step fuel time acc).1 ∧
        (fixedStepLoopFuel dur step fuel time acc).1 < dur := by
  intro fuel
  induction fuel with
  | zero => intro time acc h0 h1; simpa [fixedStepLoopFuel] using ⟨h0, h1⟩
  | succ n ih =>
    intro time acc h0 h1
    by_cases hguard : step ≤ acc
    · by_cases hwrap : dur ≤ time + step
      · have hnn : 0 ≤ time + step := by linarith
        have := ih (jsFmod (time + step) dur) (acc - step)
          (jsFmod_nonneg _ _ hd hnn) (jsFmod_lt _ _ hd hnn)
        simpa [fixedStepLoopFuel, if_pos hguard, if_pos hwrap] using this
      · push_neg at hwrap
        have := ih (time + step) (acc - step) (by linarith) hwrap
        simpa [fixedStepLoopFuel, if_pos hguard, if_neg (not_le.mpr hwrap)] using this
    · simpa [fixedStepLoopFuel, if_neg hguard] using ⟨h0, h1⟩

/-- Closed form of the loop when no wraparound occurs: starting from
`acc = n·step + r` with `0 ≤ r < step`, the loop runs exactly `n` times and
advances `time` by `n·step`. -/
lemma fixedStepLoopFuel_no_wrap (dur step : ℚ) (hs : 0 < step) :
    ∀ (n : ℕ) (time r : ℚ), 0 ≤ r → r < step →
      time + n * step < dur →
      fixedStepLoopFuel dur step n time (n * step + r) = (time + n * step, r) := by
  intro n
  induction n with
  | zero => intro time r h0 h1 hlt; simp [fixedStepLoopFuel]
  | succ k ih =>
    intro time r h0 h1 hlt
    have hguard : step ≤ (k + 1 : ℕ) * step + r := by
      push_cast
      nlinarith [mul_nonneg (by positivity : (0:ℚ) ≤ (k:ℚ)) hs.le]
    have hkstep : (0 : ℚ) ≤ k * step :=
      mul_nonneg (by positivity) hs.le
    have hnw : ¬ dur ≤ time + step := by
      push_cast at hlt
      push_neg
      nlinarith
    have hacc : ((k + 1 : ℕ) : ℚ) * step + r - step = (k : ℕ) * step + r := by
      push_cast; ring
    have hrec := ih (time + step) r h0 h1 (by push_cast at hlt ⊢; nlinarith)
    simp only [fixedStepLoopFuel]
    rw [if_pos hguard, if_neg hnw, hacc, hrec]
    have harr : time + step + (k : ℕ) * step = time + ((k + 1 : ℕ) : ℚ) * step := by
      push_cast; ring
    rw [harr]

/-- `update` never touches the configuration fields (`seed`,
`totalDuration`, `fixedTimeStep`). -/
lemma Timeline.update_config (tl : Timeline) (t : ℚ) :
    (tl.update t).seed = tl.seed ∧
      (tl.update t).totalDuration = tl.totalDuration ∧
      (tl.update t).fixedTimeStep = tl.fixedTimeStep := by
  by_cases h : tl.isPlaying <;> simp [Timeline.update, h]

lemma Timeline.runUpdates_config (tl : Timeline) (ts : List ℚ) :
    (tl.runUpdates ts).seed = tl.seed ∧
      (tl.runUpdates ts).totalDuration = tl.totalDuration ∧
      (tl.runUpdates ts).fixedTimeStep = tl.fixedTimeStep := by
  induction ts generalizing tl with
  | nil => exact ⟨rfl, rfl, rfl⟩
  | cons now rest ih =>
    have h1 := Timeline.update_config tl now
    have h2 := ih (tl.update now)
    simp only [Timeline.runUpdates]
    exact ⟨h2.1.trans h1.1, h2.2.1.trans h1.2.1, h2.2.2.trans h1.2.2⟩

/-- `restart` fully overwrites the mutable state, so two timelines agreeing
on configuration agree after `restart`. -/
lemma Timeline.restart_eq_of_config {s1 s2 : Timeline} (t0 : ℚ)
    (hseed : s1.seed = s2.seed)
    (hdur : s1.totalDuration = s2.totalDuration)
    (hstep : s1.fixedTimeStep = s2.fixedTimeStep) :
    s1.restart t0 = s2.restart t0 := by
  cases s1; cases s2
  simp_all [Timeline.restart]

/-- Every reachable timeline keeps the constructor's configuration. -/
lemma TimelineReachable.config {tl : Timeline} (h : TimelineReachable tl) :
    tl.totalDuration = 22 ∧ tl.fixedTimeStep = 1 / 60 := by
  induction h with
  | init seed =>
    exact ⟨rfl, rfl⟩
  | restart t _ ih => simpa [Timeline.restart] using ih
  | pause _ ih => simpa [Timeline.pause] using ih
  | resume t _ ih => simpa [Timeline.resume] using ih
  | update t _ ih =>
    rename_i tl' _
    have := Timeline.update_config tl' t
    exact ⟨this.2.1.trans ih.1, this.2.2.trans ih.2⟩

/-- The monotone-timestamp runs are a subset of all runs. -/
lemma TimelineReachableMono.toReachable {tl : Timeline}
    (h : TimelineReachableMono tl) : TimelineReachable tl := by
  induction h with
  | init seed => exact TimelineReachable.init seed
  | restart t _ ih => exact TimelineReachable.restart t ih
  | pause _ ih => exact TimelineReachable.pause ih
  | resume t _ ih => exact TimelineReachable.resume t ih
  | update t _ _ ih => exact TimelineReachable.update t ih

/-! ## Claim theorems -/

/-- C10: in every reachable state of the looping fixed-timestep `Timeline`
(any sequence of restart, pause, resume and update calls), `timeSeconds`
lies in `[0, totalDuration)` and hence `T = min 1 (timeSeconds / totalDuration)`
is strictly below `1`: the terminal value `T = 1` is never produced, because
each fixed step wraps `timeSeconds` modulo `totalDuration` before `T` is
recomputed. -/
theorem timeline_T_lt_one {tl : Timeline} (h : TimelineReachable tl) :
    0 ≤ tl.timeSeconds ∧ tl.timeSeconds < tl.totalDuration ∧ tl.T < 1 := by
  induction h with
  | init seed =>
    refine ⟨le_refl 0, ?_, ?_⟩ <;> norm_num [mkTimeline, TIMELINE_CONFIG_totalDuration]
  | restart t hprev ih =>
    rename_i tl'
    have hdur : (0 : ℚ) < tl'.totalDuration := lt_of_le_of_lt ih.1 ih.2.1
    simp only [Timeline.restart]
    exact ⟨le_refl 0, hdur, by norm_num⟩
  | pause hprev ih => simpa [Timeline.pause] using ih
  | resume t hprev ih => simpa [Timeline.resume] using ih
  | update t hprev ih =>
    rename_i tl'
    by_cases hplay : tl'.isPlaying
    · have hcfg := TimelineReachable.config hprev
      have hdur : (0 : ℚ) < tl'.totalDuration := by rw [hcfg.1]; norm_num
      have hstep : (0 : ℚ) < tl'.fixedTimeStep := by rw [hcfg.2]; norm_num
      have hmem := fixedStepLoopFuel_time_mem tl'.totalDuration tl'.fixedTimeStep
        hdur hstep ((⌈(tl'.accumulator + (t - tl'.lastRealTime)) / tl'.fixedTimeStep⌉).toNat)
        tl'.timeSeconds (tl'.accumulator + (t - tl'.lastRealTime)) ih.1 ih.2.1
      simp only [Timeline.update, hplay, Bool.not_true, Bool.false_eq_true, if_false,
        fixedStepLoop]
      refine ⟨hmem.1, hmem.2, ?_⟩
      have hlt : _ / tl'.totalDuration < 1 := (div_lt_one hdur).mpr hmem.2
      exact lt_of_le_of_lt (min_le_right _ _) hlt
    · simpa [Timeline.update, hplay] using ih

/-- Closed corollary of the C10 theorem at a concrete reachable state. -/
theorem timeline_T_lt_one_witness :
    0 ≤ (mkTimeline 12345).timeSeconds ∧
      (mkTimeline 12345).timeSeconds < (mkTimeline 12345).totalDuration ∧
      (mkTimeline 12345).T < 1 :=
  timeline_T_lt_one (TimelineReachable.init 12345)

/-- C2 (amended): under runs whose `update` timestamps never regress below
the stored wall-clock reference, the accumulator stays in
`[0, fixedTimeStep)`.  (The code does not clamp negative or NaN deltas, so
the claim's unrestricted version fails; see the counterexample.) -/
theorem timeline_accumulator_inv {tl : Timeline} (h : TimelineReachableMono tl) :
    0 ≤ tl.accumulator ∧ tl.accumulator < tl.fixedTimeStep := by
  induction h with
  | init seed =>
    constructor <;> norm_num [mkTimeline, TIMELINE_CONFIG_fixedTimeStep]
  | restart t hprev ih =>
    have hstep := (TimelineReachableMono.toReachable hprev).config.2
    simp only [Timeline.restart]
    rw [hstep]
    norm_num
  | pause hprev ih => simpa [Timeline.pause] using ih
  | resume t hprev ih => simpa [Timeline.resume] using ih
  | update t hle hprev ih =>
    rename_i tl'
    by_cases hplay : tl'.isPlaying
    · have hstep : (0 : ℚ) < tl'.fixedTimeStep := by
        rw [(TimelineReachableMono.toReachable hprev).config.2]; norm_num
      have hacc0 : 0 ≤ tl'.accumulator + (t - tl'.lastRealTime) := by
        have := ih.1
        linarith
      simp only [Timeline.update, hplay, Bool.not_true, Bool.false_eq_true, if_false,
        fixedStepLoop]
      refine ⟨fixedStepLoopFuel_acc_nonneg _ _ _ _ _ hacc0, ?_⟩
      exact fixedStepLoopFuel_acc_lt _ _ hstep _ _ _ (le_refl _)
    · simpa [Timeline.update, hplay] using ih

/-- Closed corollary of the amended C2 theorem at a concrete reachable
state. -/
theorem timeline_accumulator_inv_witness :
    0 ≤ (mkTimeline 12345).accumulator ∧
      (mkTimeline 12345).accumulator < (mkTimeline 12345).fixedTimeStep :=
  timeline_accumulator_inv (TimelineReachableMono.init 12345)

/-- C2 (counterexample): the state reached by `restart(0); update(-1)` —
a wall clock that regressed — has accumulator `-1`, outside
`[0, fixedTimeStep)`: `Timeline.update` integrates the negative delta
verbatim, with no clamping. -/
theorem timeline_accumulator_counterexample :
    ¬ (0 ≤ (((mkTimeline 12345).restart 0).update (-1)).accumulator ∧
        (((mkTimeline 12345).restart 0).update (-1)).accumulator <
          (((mkTimeline 12345).restart 0).update (-1)).fixedTimeStep) := by
  have hfuel : (⌈((0 : ℚ) + (-1 - 0)) / (1 / 60)⌉).toNat = 0 := by
    norm_num
    exact Int.ceil_le.mpr (by norm_num)
  simp only [mkTimeline, Timeline.restart, Timeline.update, fixedStepLoop,
    TIMELINE_CONFIG_totalDuration, TIMELINE_CONFIG_fixedTimeStep]
  norm_num [hfuel, fixedStepLoopFuel, updatePhaseName]

/-- The concrete run behind claim C5: `restart(0)` followed by
`update(6.0)` on the constructed timeline. -/
lemma timeline_run_six :
    (((mkTimeline 12345).restart 0).update 6).timeSeconds = 6 ∧
      (((mkTimeline 12345).restart 0).update 6).accumulator = 0 ∧
      (((mkTimeline 12345).restart 0).update 6).T = 3 / 11 ∧
      (((mkTimeline 12345).restart 0).update 6).phaseName = "Far Approach" := by
  have hloop := fixedStepLoopFuel_no_wrap 22 (1 / 60) (by norm_num) 360 0 0
    (le_refl 0) (by norm_num) (by norm_num)
  have hin : ((360 : ℕ) : ℚ) * (1 / 60) + 0 = 6 := by norm_num
  have hout : (0 : ℚ) + ((360 : ℕ) : ℚ) * (1 / 60) = 6 := by norm_num
  have htn : Int.toNat 360 = (360 : ℕ) := by decide
  rw [hin, hout] at hloop
  simp only [mkTimeline, Timeline.restart, Timeline.update, fixedStepLoop,
    TIMELINE_CONFIG_totalDuration, TIMELINE_CONFIG_fixedTimeStep]
  norm_num [htn, hloop, updatePhaseName, min_def]

/-- C5 (counterexample): the fixed-timestep `Timeline` is configured with
`totalDuration = 22`, not `12`, and the scenario run `restart(0); update(6.0)`
therefore lands at `T = 3/11`, not `0.5`. -/
theorem timeline_scenario_counterexample :
    (mkTimeline 12345).totalDuration ≠ 12 ∧
      (((mkTimeline 12345).restart 0).update 6).T ≠ 1 / 2 := by
  constructor
  · norm_num [mkTimeline, TIMELINE_CONFIG_totalDuration]
  · rw [timeline_run_six.2.2.1]
    norm_num

/-- C5 (amended): with the configured `totalDuration = 22` s and
`fixedTimeStep = 1/60` s, `restart(0)` followed by `update(6.0)` advances
`timeSeconds` in 360 fixed steps to exactly `360 · (1/60) = 6` seconds
(accumulator drained to `0`), yields `T = 6/22 = 3/11`, and reports the
phase whose range contains `3/11` (`Far Approach`). -/
theorem timeline_scenario_updateSix :
    (mkTimeline 12345).totalDuration = 22 ∧
      (((mkTimeline 12345).restart 0).update 6).timeSeconds = 360 * (1 / 60) ∧
      (((mkTimeline 12345).restart 0).update 6).accumulator = 0 ∧
      (((mkTimeline 12345).restart 0).update 6).T = 3 / 11 ∧
      (((mkTimeline 12345).restart 0).update 6).phaseName = "Far Approach" := by
  refine ⟨by norm_num [mkTimeline, TIMELINE_CONFIG_totalDuration], ?_,
    timeline_run_six.2.1, timeline_run_six.2.2.1, timeline_run_six.2.2.2⟩
  rw [timeline_run_six.1]
  norm_num

/-- C6: restart is idempotent — `restart(t0); run N frames; restart(t0);
run the same N frames` produces identical `T` sequences in both runs, for
every timeline, restart timestamp and frame-timestamp sequence. -/
theorem timeline_restart_idempotent (tl : Timeline) (t0 : ℚ) (ts : List ℚ) :
    (tl.restart t0).TSeq ts = (((tl.restart t0).runUpdates ts).restart t0).TSeq ts := by
  have hcfg := Timeline.runUpdates_config (tl.restart t0) ts
  have hr : ((tl.restart t0).runUpdates ts).restart t0 = (tl.restart t0).restart t0 :=
    Timeline.restart_eq_of_config t0 hcfg.1 hcfg.2.1 hcfg.2.2
  have hrr : (tl.restart t0).restart t0 = tl.restart t0 :=
    Timeline.restart_eq_of_config t0 (by simp [Timeline.restart])
      (by simp [Timeline.restart]) (by simp [Timeline.restart])
  rw [hr, hrr]

/-- Iterating `next()` adds the Mulberry32 increment to the stored state
once per call, with no wraparound. -/
lemma SeededRNG.nextN_state :
    ∀ (n : ℕ) (r : SeededRNG), (r.nextN n).state = r.state + n * MULBERRY_INC := by
  intro n
  induction n with
  | zero => intro r; simp [SeededRNG.nextN]
  | succ k ih =>
    intro r
    rw [SeededRNG.nextN, ih]
    simp only [SeededRNG.next]
    ring

/-- C3 (amended): the RNG state is *not* confined to 32-bit wraparound:
`next()` stores `state + 0x6d2b79f5` back without the `>>> 0` coercion, so
after `n` calls the state field equals `(seed >>> 0) + n · 0x6d2b79f5`,
growing without bound (only the output computation reduces modulo 2^32). -/
theorem rng_state_linear (seed n : ℕ) :
    ((mkSeededRNG seed).nextN n).state = seed % U32 + n * MULBERRY_INC := by
  rw [SeededRNG.nextN_state n (mkSeededRNG seed)]
  rfl

/-- C3 (counterexample): after three `next()` calls from the default seed
12345 the state field is `12345 + 3 · 0x6d2b79f5 = 5494709784 ≥ 2^32`,
refuting the claim that the state is always an unsigned 32-bit integer. -/
theorem rng_state_counterexample :
    ¬ (((mkSeededRNG 12345).nextN 3).state < 2 ^ 32) := by
  decide

/-- The scrambled output of `next()` is an unsigned 32-bit integer. -/
lemma mulberryOutput_lt (s : ℕ) : mulberryOutput s < U32 := by
  simp only [mulberryOutput]
  exact Nat.mod_lt _ (by norm_num [U32])

/-- `next()` returns a value in `[0, 1)`. -/
lemma SeededRNG.next_val_mem (r : SeededRNG) :
    0 ≤ (r.next).1 ∧ (r.next).1 < 1 := by
  simp only [SeededRNG.next]
  constructor
  · exact div_nonneg (by positivity) (by norm_num [U32])
  · rw [div_lt_one (by norm_num [U32])]
    exact_mod_cast mulberryOutput_lt _

/-- C9: for every nonempty array, `pick(array)` returns an element of the
array — the computed index `rangeInt(0, array.length - 1)` lies within
bounds because `next()` is strictly below 1, so the floor of
`range(0, length)` never reaches `length`. -/
theorem rng_pick_mem {α : Type} (r : SeededRNG) (l : List α) (h : l ≠ []) :
    ∃ x ∈ l, (r.pick l).1 = some x := by
  have hv := SeededRNG.next_val_mem r
  have hlen : 0 < l.length := List.length_pos.mpr h
  have hlenQ : (0 : ℚ) < (l.length : ℚ) := by exact_mod_cast hlen
  simp only [SeededRNG.pick, SeededRNG.rangeInt, SeededRNG.range]
  have harg : 0 + (r.next).1 * ((l.length : ℚ) - 1 + 1 - 0) =
      (r.next).1 * (l.length : ℚ) := by ring
  rw [harg]
  have h0 : (0 : ℚ) ≤ (r.next).1 * (l.length : ℚ) :=
    mul_nonneg hv.1 hlenQ.le
  have h1 : (r.next).1 * (l.length : ℚ) < (l.length : ℚ) := by
    calc (r.next).1 * (l.length : ℚ) < 1 * (l.length : ℚ) :=
          mul_lt_mul_of_pos_right hv.2 hlenQ
      _ = (l.length : ℚ) := one_mul _
  have hge : 0 ≤ ⌊(r.next).1 * (l.length : ℚ)⌋ := Int.floor_nonneg.mpr h0
  have hlt : ⌊(r.next).1 * (l.length : ℚ)⌋ < (l.length : ℤ) := by
    apply Int.floor_lt.mpr
    push_cast
    exact h1
  have htn : (⌊(r.next).1 * (l.length : ℚ)⌋).toNat < l.length := by omega
  refine ⟨l.get ⟨(⌊(r.next).1 * (l.length : ℚ)⌋).toNat, htn⟩, List.get_mem l _ htn, ?_⟩
  rw [jsIndex, dif_pos ⟨hge, htn⟩]

/-- Closed corollary of the C9 theorem at a concrete input. -/
theorem rng_pick_mem_witness :
    ([10, 20, 30] : List ℕ) ≠ [] ∧
      ∃ x ∈ ([10, 20, 30] : List ℕ),
        ((mkSeededRNG 42).pick [10, 20, 30]).1 = some x :=
  ⟨by decide, rng_pick_mem (mkSeededRNG 42) [10, 20, 30] (by decide)⟩

/-- C8: with `heatThreshold = 0.4` and `maxEmissive = 2.5`, the heat curve
is `0` at `T = 0.3` (every emissive component vanishes below the
threshold) and reaches the maximum emissive multiplier `2.5` at `T = 1`
(emissive colour `heatColor · 2.5 = (2.5, 1, 0.25)`). -/
theorem heat_curve_scenario :
    heatIntensity (3 / 10) = 0 ∧
      updateHeatingEmissive (3 / 10) = (0, 0, 0) ∧
      heatIntensity 1 * maxEmissive = 5 / 2 ∧
      updateHeatingEmissive 1 = (5 / 2, 1, 1 / 4) := by
  norm_num [heatIntensity, updateHeatingEmissive, heatThreshold, maxEmissive,
    heatColor]

/-- A single latch observation latches exactly when `T` is at or above the
threshold, and fires exactly when it latches from an unlatched state. -/
lemma latchStep_eq (trig : Bool) (T : ℚ) :
    latchStep trig T =
      (decide (overlayImpactT ≤ T), decide (overlayImpactT ≤ T) && !trig) := by
  by_cases h : overlayImpactT ≤ T
  · have h' : ¬ (T < overlayImpactT) := not_lt.mpr h
    cases trig <;> simp [latchStep, h, h']
  · have h' : T < overlayImpactT := not_le.mp h
    cases trig <;> simp [latchStep, h, h']

/-- C4: the impact latch fires exactly once per upward crossing of the
threshold `0.95`: over any sequence of observed `T` values, frame `i`
fires iff `T_i ≥ 0.95` while the previous observation left the latch low
(initial latch state for frame 0, `T_{i-1} < 0.95` afterwards) — so a
crossing from below fires exactly once, staying at or above the threshold
never re-fires, and any observation below the threshold (after a restart)
resets the latch before it can fire again.  The second conjunct runs the
spec scenario `0.90 → 0.96 → restart → 0.96`. -/
theorem impact_latch_once :
    (∀ (trig0 : Bool) (ts : List ℚ),
      latchRun trig0 ts =
        List.zipWith (fun T prev => decide (overlayImpactT ≤ T) && !prev) ts
          (trig0 :: ts.map (fun T => decide (overlayImpactT ≤ T)))) ∧
      latchRun false [9 / 10, 24 / 25, 0, 1 / 2, 24 / 25] =
        [false, true, false, false, true] := by
  constructor
  · intro trig0 ts
    induction ts generalizing trig0 with
    | nil => rfl
    | cons T rest ih =>
      simp only [latchRun, latchStep_eq, List.map, List.zipWith]
      rw [ih]
  · norm_num [latchRun, latchStep, overlayImpactT]

/-- C1 (counterexample): the claim that the phase table, the overlay's
one-shot trigger and the `Timeline` phase classification all use one shared
`T_IMPACT` value is false — the overlay hard-codes `0.95` while
`T_IMPACT = 0.85`. -/
theorem impact_constant_counterexample :
    ¬ ((PHASES.get? 3 =
          some ("IMPACT",
            { start := T_IMPACT, endt := T_IMPACT + 2 / 100, name := "Impact" })) ∧
        overlayImpactT = T_IMPACT ∧
        (∀ T : ℚ, updatePhaseName true T = "Impact" ↔
          T_IMPACT ≤ T ∧ T < T_IMPACT + 2 / 100)) := by
  intro h
  have := h.2.1
  norm_num [overlayImpactT, T_IMPACT] at this

/-- C1 (amended): the phase-table boundaries of the timeline module and the
phase classification of the `main.js` `Timeline` agree on
`T_IMPACT = 0.85` (Near Rush ends and Impact begins there, Impact ends at
`T_IMPACT + 0.02 = 0.87`), but the overlay's one-shot impact trigger uses
a separately hard-coded threshold `0.95`, which is *not* equal to
`T_IMPACT`. -/
theorem impact_constant_amended :
    PHASES.get? 2 =
        some ("NEAR_RUSH", { start := 3 / 5, endt := T_IMPACT, name := "Near Rush" }) ∧
      PHASES.get? 3 =
        some ("IMPACT",
          { start := T_IMPACT, endt := T_IMPACT + 2 / 100, name := "Impact" }) ∧
      (∀ T : ℚ, updatePhaseName true T = "Impact" ↔
        T_IMPACT ≤ T ∧ T < T_IMPACT + 2 / 100) ∧
      T_IMPACT = 17 / 20 ∧ overlayImpactT = 19 / 20 ∧ overlayImpactT ≠ T_IMPACT := by
  refine ⟨rfl, rfl, ?_, by norm_num [T_IMPACT], by norm_num [overlayImpactT],
    by norm_num [overlayImpactT, T_IMPACT]⟩
  intro T
  have hb : T_IMPACT = 17 / 20 := by norm_num [T_IMPACT]
  have hb2 : T_IMPACT + 2 / 100 = 87 / 100 := by norm_num [T_IMPACT]
  rw [hb2, hb]
  simp only [updatePhaseName, Bool.not_true, Bool.false_eq_true, if_false]
  split_ifs with h1 h2 h3 h4 <;> simp <;>
    first
      | (constructor <;> linarith)
      | (intro hh; linarith)

/-- For a positive-length phase whose start is not above `t`, the clamped
progress expression lies in `[0, 1]`. -/
lemma phaseProgressFor_mem {t : ℚ} {ph : Phase} (hlen : 0 < ph.endt - ph.start)
    (hs : ph.start ≤ t) : 0 ≤ phaseProgressFor t ph ∧ phaseProgressFor t ph ≤ 1 := by
  simp only [phaseProgressFor]
  rw [if_neg (ne_of_gt hlen)]
  constructor
  · exact le_min (by norm_num) (div_nonneg (by linarith) hlen.le)
  · exact min_le_left _ _

/-- Under monotone timestamps, the driver keeps its configured duration
and `t ∈ [0, 1]`. -/
lemma driver_inv {d : TimelineDriver} (h : DriverReachableMono d) :
    d.duration = 12000 ∧ 0 ≤ d.t ∧ d.t ≤ 1 := by
  induction h with
  | init => refine ⟨rfl, le_refl 0, by norm_num [mkTimelineDriver]⟩
  | restart s hprev ih =>
    simp only [TimelineDriver.restart]
    exact ⟨ih.1, le_refl 0, by norm_num⟩
  | stop hprev ih => simpa [TimelineDriver.stop] using ih
  | update now hcond hprev ih =>
    rename_i d'
    rcases hstart : d'.startTime with _ | s
    · simp only [TimelineDriver.update, hstart]
      exact ih
    · by_cases hplay : d'.playing
      · have hel : 0 ≤ now - s := by
          have := hcond s hstart
          linarith
        have hdur : d'.duration = 12000 := ih.1
        have hjn := jsFmod_nonneg (now - s) d'.duration (by rw [hdur]; norm_num) hel
        have hjl := jsFmod_lt (now - s) d'.duration (by rw [hdur]; norm_num) hel
        simp only [TimelineDriver.update, hstart, hplay, Bool.not_true,
          Bool.false_eq_true, if_false]
        refine ⟨hdur, le_min (by norm_num) (div_nonneg hjn ?_), min_le_left _ _⟩
        rw [hdur]
        norm_num
      · simp only [TimelineDriver.update, hstart, hplay, Bool.not_false]
        simpa using ih

/-- With `t ∈ [0, 1]` the scan-and-clamp of `getPhaseProgress` lands in
`[0, 1]` (the fallback at `t = 1` evaluates to exactly `1`). -/
lemma getPhaseProgress_mem (d : TimelineDriver) (h0 : 0 ≤ d.t) (h1 : d.t ≤ 1) :
    0 ≤ d.getPhaseProgress ∧ d.getPhaseProgress ≤ 1 := by
  unfold TimelineDriver.getPhaseProgress TimelineDriver.getCurrentPhase
  rcases lt_or_le d.t (3 / 10) with hA | hA
  · have hf : findPhase d.t PHASES =
        some ("FAR_APPROACH", { start := 0, endt := 3 / 10, name := "Far Approach" }) := by
      simp only [PHASES, findPhase, T_IMPACT]
      rw [if_pos ⟨h0, hA⟩]
    rw [hf]
    exact phaseProgressFor_mem (by norm_num) h0
  · rcases lt_or_le d.t (3 / 5) with hB | hB
    · have hf : findPhase d.t PHASES =
          some ("MID_APPROACH", { start := 3 / 10, endt := 3 / 5, name := "Mid Approach" }) := by
        simp only [PHASES, findPhase, T_IMPACT]
        rw [if_neg (fun hc => absurd hc.2 (not_lt.mpr hA)), if_pos ⟨hA, hB⟩]
      rw [hf]
      exact phaseProgressFor_mem (by norm_num) hA
    · rcases lt_or_le d.t (85 / 100) with hC | hC
      · have hf : findPhase d.t PHASES =
            some ("NEAR_RUSH", { start := 3 / 5, endt := 85 / 100, name := "Near Rush" }) := by
          simp only [PHASES, findPhase, T_IMPACT]
          rw [if_neg (fun hc => absurd hc.2 (not_lt.mpr (by linarith))),
            if_neg (fun hc => absurd hc.2 (not_lt.mpr hB)), if_pos ⟨hB, hC⟩]
        rw [hf]
        exact phaseProgressFor_mem (by norm_num) hB
      · rcases lt_or_le d.t (87 / 100) with hD | hD
        · have hf : findPhase d.t PHASES =
              some ("IMPACT",
                { start := 85 / 100, endt := 85 / 100 + 2 / 100, name := "Impact" }) := by
            simp only [PHASES, findPhase, T_IMPACT]
            rw [if_neg (fun hc => absurd hc.2 (not_lt.mpr (by linarith))),
              if_neg (fun hc => absurd hc.2 (not_lt.mpr (by linarith))),
              if_neg (fun hc => absurd hc.2 (not_lt.mpr hC)),
              if_pos ⟨hC, by linarith⟩]
          rw [hf]
          exact phaseProgressFor_mem (by norm_num) hC
        · rcases lt_or_le d.t 1 with hE | hE
          · have hf : findPhase d.t PHASES =
                some ("AFTERMATH",
                  { start := 85 / 100 + 2 / 100, endt := 1, name := "Aftermath" }) := by
              simp only [PHASES, findPhase, T_IMPACT]
              rw [if_neg (fun hc => absurd hc.2 (not_lt.mpr (by linarith))),
                if_neg (fun hc => absurd hc.2 (not_lt.mpr (by linarith))),
                if_neg (fun hc => absurd hc.2 (not_lt.mpr (by linarith))),
                if_neg (fun hc => absurd hc.2 (not_lt.mpr (by linarith))),
                if_pos ⟨by linarith, hE⟩]
            rw [hf]
            exact phaseProgressFor_mem (by norm_num) (by linarith)
          · have ht : d.t = 1 := le_antisymm h1 hE
            have hf : findPhase d.t PHASES = none := by
              simp only [PHASES, findPhase, T_IMPACT]
              rw [if_neg (fun hc => absurd hc.2 (not_lt.mpr (by linarith))),
                if_neg (fun hc => absurd hc.2 (not_lt.mpr (by linarith))),
                if_neg (fun hc => absurd hc.2 (not_lt.mpr (by linarith))),
                if_neg (fun hc => absurd hc.2 (not_lt.mpr (by linarith))),
                if_neg (fun hc => absurd hc.2 (not_lt.mpr hE))]
            rw [hf, ht]
            norm_num [phaseProgressFor, PHASES_AFTERMATH, T_IMPACT]

/-- C7 (counterexample): with an `update` timestamp earlier than the
`restart` timestamp (wall clock regressed), the JS remainder is negative,
`t` goes negative, the phase scan falls through to the `AFTERMATH`
fallback, and `getPhaseProgress()` returns a negative value — the claimed
unconditional `[0, 1]` clamp fails (the code clamps only from above with
`Math.min(1, ·)`). -/
theorem driver_phase_progress_counterexample :
    ¬ (0 ≤ (((mkTimelineDriver).restart 100).update 0).getPhaseProgress ∧
        (((mkTimelineDriver).restart 100).update 0).getPhaseProgress ≤ 1) := by
  have hc : (⌈(-(1 / 120) : ℚ)⌉ : ℤ) = 0 := by
    rw [Int.ceil_eq_zero_iff]
    constructor <;> norm_num
  norm_num [TimelineDriver.getPhaseProgress, TimelineDriver.getCurrentPhase,
    findPhase, PHASES, T_IMPACT, PHASES_AFTERMATH, phaseProgressFor,
    TimelineDriver.update, TimelineDriver.restart, mkTimelineDriver,
    jsFmod, jsTrunc, min_def, TIMELINE_DURATION_MS, hc]

/-- C7 (amended): for every driver state reached by restart/stop/update
sequences whose update timestamps do not precede the recorded start time,
`getPhaseProgress()` lies in `[0, 1]`; and for a zero-length phase the
progress expression returns exactly `1` (the divide-by-zero guard). -/
theorem driver_phase_progress_clamped :
    (∀ d : TimelineDriver, DriverReachableMono d →
        0 ≤ d.getPhaseProgress ∧ d.getPhaseProgress ≤ 1) ∧
      ∀ (t : ℚ) (ph : Phase), ph.endt - ph.start = 0 → phaseProgressFor t ph = 1 := by
  constructor
  · intro d hd
    have hinv := driver_inv hd
    exact getPhaseProgress_mem d hinv.2.1 hinv.2.2
  · intro t ph hlen
    simp [phaseProgressFor, hlen]

/-- Closed corollary of the amended C7 theorem at a concrete reachable
state. -/
theorem driver_phase_progress_clamped_witness :
    0 ≤ (mkTimelineDriver).getPhaseProgress ∧
      (mkTimelineDriver).getPhaseProgress ≤ 1 :=
  driver_phase_progress_clamped.1 (mkTimelineDriver) DriverReachableMono.init

end AsteroidImpact
